import Mathlib

/-!
Verification development for the Teams chat converter pipeline
(`teams_chat_converter.py`): a shallow embedding of the structure
discoverer, field extractors, URL classifier, link/attachment extractor,
deduplicator and timestamp-drift detector, together with theorems about
the claimed behaviour of each component.

Modelling conventions:
* HTML documents are a tree of element/text nodes; BeautifulSoup queries
  (`find_all`, `find`, `get_text`, attribute access) are modelled as
  structurally recursive tree functions returning matches in document
  order, searching descendants only (as BeautifulSoup does).
* Python strings are Lean `String`s; `str.lower` is modelled as ASCII
  lowercasing (all inputs of interest are ASCII), `x in s` as substring
  containment, `str.strip` as whitespace trimming.
* `datetime` values are modelled as an integer number of microseconds
  (Python datetimes carry microsecond precision and `timedelta`
  comparisons are exact at that precision).
* Regular expressions used by the source are alternations of literal
  strings matched case-insensitively with `re.search`; they are modelled
  as case-insensitive substring tests for each literal.
-/

namespace TeamsChat

/-! ## String utilities (models of Python `str` operations, ASCII) -/

def asciiLowerChar (c : Char) : Char :=
  if 65 ≤ c.toNat ∧ c.toNat ≤ 90 then Char.ofNat (c.toNat + 32) else c

def lowerStr (s : String) : String :=
  ⟨s.data.map asciiLowerChar⟩

/-- `isPrefixL pat l` : is `pat` a prefix of `l`. -/
def isPrefixL : List Char → List Char → Bool
  | [], _ => true
  | _ :: _, [] => false
  | a :: as', b :: bs => a == b && isPrefixL as' bs

/-- `containsL pat l` : does `pat` occur as a contiguous sublist of `l`
(model of Python `pat in s`). -/
def containsL (pat : List Char) : List Char → Bool
  | [] => pat.isEmpty
  | c :: cs => isPrefixL pat (c :: cs) || containsL pat cs

def containsStr (s pat : String) : Bool := containsL pat.data s.data

/-- Case-insensitive substring test (model of `re.search` for a literal
pattern compiled with `re.I`). -/
def containsCI (s pat : String) : Bool := containsStr (lowerStr s) (lowerStr pat)

def startsWithStr (s pat : String) : Bool := isPrefixL pat.data s.data

def endsWithStr (s pat : String) : Bool := isPrefixL pat.data.reverse s.data.reverse

def isWsChar (c : Char) : Bool := c == ' ' || c == '\t' || c == '\n' || c == '\r'

/-- Model of Python `str.strip()`. -/
def trimStr (s : String) : String :=
  ⟨((s.data.dropWhile isWsChar).reverse.dropWhile isWsChar).reverse⟩

/-- Split a character list on a separator predicate (used to model
`str.split` and class-token splitting). -/
def splitOnPred (p : Char → Bool) : List Char → List (List Char)
  | [] => [[]]
  | c :: rest =>
    let r := splitOnPred p rest
    if p c then [] :: r
    else
      match r with
      | h :: t => (c :: h) :: t
      | [] => [[c]]

/-- Whitespace-separated tokens of an attribute value (BeautifulSoup
splits the `class` attribute into tokens). -/
def splitWs (s : String) : List String :=
  (splitOnPred isWsChar s.data).filterMap
    (fun l => if l.isEmpty then none else some ⟨l⟩)

/-! ## HTML document model -/

/-- A node of the parsed document tree: an element with a tag name,
attribute list and children, or a text node. -/
inductive Html where
  | elem (tag : String) (attrs : List (String × String)) (children : List Html)
  | text (s : String)

mutual

def htmlDecEq : (a b : Html) → Decidable (a = b)
  | .elem t1 a1 c1, .elem t2 a2 c2 =>
    match decEq t1 t2 with
    | isFalse h => isFalse (fun he => by injection he with e1 e2 e3; exact h e1)
    | isTrue h1 =>
      match decEq a1 a2 with
      | isFalse h => isFalse (fun he => by injection he with e1 e2 e3; exact h e2)
      | isTrue h2 =>
        match htmlListDecEq c1 c2 with
        | isFalse h => isFalse (fun he => by injection he with e1 e2 e3; exact h e3)
        | isTrue h3 => isTrue (by rw [h1, h2, h3])
  | .elem _ _ _, .text _ => isFalse nofun
  | .text _, .elem _ _ _ => isFalse nofun
  | .text s1, .text s2 =>
    match decEq s1 s2 with
    | isFalse h => isFalse (fun he => by injection he with e1; exact h e1)
    | isTrue h1 => isTrue (by rw [h1])

def htmlListDecEq : (a b : List Html) → Decidable (a = b)
  | [], [] => isTrue rfl
  | [], _ :: _ => isFalse nofun
  | _ :: _, [] => isFalse nofun
  | x :: xs, y :: ys =>
    match htmlDecEq x y with
    | isFalse h => isFalse (fun he => by injection he with e1 e2; exact h e1)
    | isTrue h1 =>
      match htmlListDecEq xs ys with
      | isFalse h => isFalse (fun he => by injection he with e1 e2; exact h e2)
      | isTrue h2 => isTrue (by rw [h1, h2])

end

instance : DecidableEq Html := htmlDecEq

mutual

def htmlBEq : Html → Html → Bool
  | .elem t1 a1 c1, .elem t2 a2 c2 => t1 == t2 && a1 == a2 && htmlListBEq c1 c2
  | .text s1, .text s2 => s1 == s2
  | _, _ => false

def htmlListBEq : List Html → List Html → Bool
  | [], [] => true
  | x :: xs, y :: ys => htmlBEq x y && htmlListBEq xs ys
  | _, _ => false

end

instance : BEq Html := ⟨htmlBEq⟩

def tagOf : Html → String
  | .elem t _ _ => t
  | .text _ => ""

def childrenOf : Html → List Html
  | .elem _ _ cs => cs
  | .text _ => []

def tagIs (e : Html) (t : String) : Bool :=
  match e with
  | .elem tg _ _ => tg == t
  | .text _ => false

/-- Attribute lookup (first binding wins, as the HTML parser keeps the
first occurrence of a duplicated attribute). -/
def getAttr (e : Html) (name : String) : Option String :=
  match e with
  | .elem _ attrs _ => (attrs.find? (fun p => p.1 == name)).map (fun p => p.2)
  | .text _ => none

def getAttrD (e : Html) (name dflt : String) : String := (getAttr e name).getD dflt

def hasAttr (e : Html) (name : String) : Bool := (getAttr e name).isSome

mutual

/-- Model of `element.get_text()` : concatenation of all descendant text,
unstripped. -/
def getTextRaw : Html → String
  | .text s => s
  | .elem _ _ cs => getTextRawList cs

def getTextRawList : List Html → String
  | [] => ""
  | c :: cs => getTextRaw c ++ getTextRawList cs

end

mutual

/-- Model of `element.get_text(strip=True)` : concatenation of the
stripped descendant text fragments. -/
def getTextS : Html → String
  | .text s => trimStr s
  | .elem _ _ cs => getTextSList cs

def getTextSList : List Html → String
  | [] => ""
  | c :: cs => getTextS c ++ getTextSList cs

end

mutual

/-- Model of `element.find_all(...)` : all descendants (not the element
itself) satisfying the predicate, in document order. -/
def findAllDesc (p : Html → Bool) : Html → List Html
  | .text _ => []
  | .elem _ _ cs => findAllList p cs

def findAllList (p : Html → Bool) : List Html → List Html
  | [] => []
  | c :: cs => (if p c then [c] else []) ++ findAllDesc p c ++ findAllList p cs

end

/-- Model of `element.find(...)` : first matching descendant. -/
def findFirst (p : Html → Bool) (e : Html) : Option Html :=
  (findAllDesc p e).head?

/-- The node itself followed by all of its descendants. -/
def nodesWithSelf (root : Html) : List Html :=
  root :: findAllDesc (fun _ => true) root

/-- Model of `node.parent` relative to a containing root: the first node
(in document order) having the target among its children. -/
def parentOf (root target : Html) : Option Html :=
  (nodesWithSelf root).find? (fun n => (childrenOf n).any (fun c => htmlBEq c target))

/-! ## Attribute matchers used by the selectors -/

def getClassAttr (e : Html) : Option String := getAttr e "class"

/-- BeautifulSoup `{'class': v}` : the multi-valued class attribute
contains the exact token `v`. -/
def classHasToken (e : Html) (tok : String) : Bool :=
  match getClassAttr e with
  | some v => (splitWs v).any (fun t => t == tok)
  | none => false

/-- BeautifulSoup `class_=re.compile(lit1|lit2|..., re.I)` : the class
attribute value contains one of the literals, case-insensitively. -/
def classContainsAnyCI (e : Html) (lits : List String) : Bool :=
  match getClassAttr e with
  | some v => lits.any (fun lit => containsCI v lit)
  | none => false

def attrIs (e : Html) (name v : String) : Bool :=
  match getAttr e name with
  | some w => w == v
  | none => false

/-! ## URL parsing (model of `urllib.parse.urlparse`)

Only the `netloc` and `path` components are consumed by the source, so
the model splits off an optional scheme, then the authority (when the
remainder starts with `//`), then the path up to a query or fragment
delimiter.  CPython raises `ValueError` ("Invalid IPv6 URL") when the
authority has a `[` without `]` or vice versa; the model returns `none`
there (the callers catch the exception). -/

def isSchemeTailChar (c : Char) : Bool :=
  ('a' ≤ c ∧ c ≤ 'z') || ('A' ≤ c ∧ c ≤ 'Z') || ('0' ≤ c ∧ c ≤ '9') ||
    c == '+' || c == '-' || c == '.'

def isAlphaChar (c : Char) : Bool :=
  ('a' ≤ c ∧ c ≤ 'z') || ('A' ≤ c ∧ c ≤ 'Z')

/-- Drop a leading `scheme:`, if the prefix up to the first `:` is a
syntactically valid scheme; otherwise return the input unchanged. -/
def schemeSplitAux : List Char → Option (List Char)
  | [] => none
  | ':' :: rest => some rest
  | c :: rest => if isSchemeTailChar c then schemeSplitAux rest else none

def stripScheme (l : List Char) : List Char :=
  match l with
  | c :: rest =>
    if isAlphaChar c then
      match schemeSplitAux rest with
      | some r => r
      | none => l
    else l
  | [] => []

/-- Take characters until one of the stop characters is met; returns the
taken span and the remainder (stop character included). -/
def takeUntil (stops : List Char) : List Char → List Char × List Char
  | [] => ([], [])
  | c :: rest =>
    if stops.contains c then ([], c :: rest)
    else
      let (tk, rm) := takeUntil stops rest
      (c :: tk, rm)

/-- `urlparseModel l = some (netloc, path)`, or `none` when CPython's
`urlparse` would raise. -/
def urlparseModel (l : List Char) : Option (String × String) :=
  let rest := stripScheme l
  if isPrefixL ['/', '/'] rest then
    let (netloc, rest') := takeUntil ['/', '?', '#'] (rest.drop 2)
    if (netloc.contains '[' : Bool) ≠ (netloc.contains ']' : Bool) then none
    else
      let (path, _) := takeUntil ['?', '#'] rest'
      some (⟨netloc⟩, ⟨path⟩)
  else
    let (path, _) := takeUntil ['?', '#'] rest
    some ("", ⟨path⟩)

/-! ## URL classifier (model of `_classify_url`) -/

def sharePointHost (domain : String) : Bool :=
  containsStr domain "sharepoint.com" || containsStr domain "sharepoint."

def teamsHost (domain : String) : Bool :=
  containsStr domain "teams.microsoft.com" || containsStr domain "teams.live.com"

def oneDriveHost (domain : String) : Bool :=
  containsStr domain "onedrive"

def fileSharingHost (domain : String) : Bool :=
  ["dropbox.com", "box.com", "drive.google.com"].any (fun d => containsStr domain d)

def meetingHost (domain : String) : Bool :=
  ["zoom.us", "meet.google.com", "webex.com"].any (fun d => containsStr domain d)

/-- Any of the five host-based rules of `_classify_url`. -/
def anyHostRule (domain : String) : Bool :=
  sharePointHost domain || teamsHost domain || oneDriveHost domain ||
    fileSharingHost domain || meetingHost domain

def docExtPath (path : String) : Bool :=
  [".pdf", ".doc", ".docx", ".xls", ".xlsx", ".ppt", ".pptx"].any
    (fun ext => endsWithStr path ext)

def mediaExtPath (path : String) : Bool :=
  [".jpg", ".jpeg", ".png", ".gif", ".mp4", ".mp3"].any
    (fun ext => endsWithStr path ext)

/-- The host/path rule chain of `_classify_url`, applied to the
lower-cased, parsed URL components, in the source's order. -/
def classify_hostpath (domain path : String) : String :=
  if sharePointHost domain then "SharePoint"
  else if teamsHost domain then "Teams"
  else if oneDriveHost domain then "OneDrive"
  else if fileSharingHost domain then "File Sharing"
  else if meetingHost domain then "Meeting"
  else if docExtPath path then "Document"
  else if mediaExtPath path then "Media"
  else "Web"

/-- Model of `_classify_url`: lower-case, parse, apply the rule chain;
an unparseable URL (exception) yields "Unknown". -/
def classify_url (url : String) : String :=
  match urlparseModel (lowerStr url).data with
  | none => "Unknown"
  | some (domain, path) => classify_hostpath domain path

/-! ## URL extraction (model of `_extract_urls`) -/

structure UrlInfo where
  url : String
  displayText : String
  urlType : String
deriving DecidableEq, Repr

/-- A character admitted by the body of the source's URL regex
`http[s]?://(?:[a-zA-Z]|[0-9]|[$-_@.&+]|[!*\(\),]|%hex)+` : note that
`[$-_@.&+]` is a character *range* from `$` (0x24) to `_` (0x5F). -/
def isUrlBodyChar (c : Char) : Bool :=
  ('$' ≤ c ∧ c ≤ '_') || ('a' ≤ c ∧ c ≤ 'z') || c == '!' || c == '\\'

def spanUrlBody : List Char → List Char × List Char
  | [] => ([], [])
  | c :: rest =>
    if isUrlBodyChar c then
      let (tk, rm) := spanUrlBody rest
      (c :: tk, rm)
    else ([], c :: rest)

/-- Try to match the URL regex at the current position; on success
return the matched URL and the remainder of the text. -/
def tryUrlAt (l : List Char) : Option (String × List Char) :=
  if isPrefixL ['h', 't', 't', 'p'] l then
    let rest4 := l.drop 4
    let pref : Option (String × List Char) :=
      if isPrefixL ['s', ':', '/', '/'] rest4 then some ("https://", rest4.drop 4)
      else if isPrefixL [':', '/', '/'] rest4 then some ("http://", rest4.drop 3)
      else none
    match pref with
    | some (scheme, body) =>
      let (tk, rm) := spanUrlBody body
      if tk.isEmpty then none else some (scheme ++ ⟨tk⟩, rm)
    | none => none
  else none

/-- Model of `re.finditer` for the URL pattern: leftmost matches, scan
resumes after each match.  Each step consumes at least one character, so
a fuel equal to the text length suffices. -/
def scanUrlsAux : Nat → List Char → List String
  | 0, _ => []
  | _, [] => []
  | fuel + 1, c :: rest =>
    match tryUrlAt (c :: rest) with
    | some (url, rm) => url :: scanUrlsAux fuel rm
    | none => scanUrlsAux fuel rest

def scanUrls (l : List Char) : List String := scanUrlsAux l.length l

/-- One step of the anchor-scanning loop of `_extract_urls` (method 1):
the accumulator is the collected URL list and the `seen_urls` set. -/
def urlAnchorStep (acc : List UrlInfo × List String) (link : Html) :
    List UrlInfo × List String :=
  let url := trimStr (getAttrD link "href" "")
  let displayText := getTextS link
  if url ≠ "" ∧ url ∉ acc.2 then
    if ["javascript:", "mailto:", "#", "tel:"].any (fun p => startsWithStr url p) then acc
    else
      (acc.1 ++ [⟨url, if displayText ≠ "" then displayText else url, classify_url url⟩],
       acc.2 ++ [url])
  else acc

/-- One step of the regex-scanning loop of `_extract_urls` (method 2). -/
def urlTextStep (acc : List UrlInfo × List String) (url : String) :
    List UrlInfo × List String :=
  if url ∉ acc.2 then
    (acc.1 ++ [⟨url, url, classify_url url⟩], acc.2 ++ [url])
  else acc

/-- Model of `_extract_urls`: anchor hrefs first (skipping non-navigable
schemes), then regex matches over the raw visible text, deduplicated by
exact URL string with first occurrence winning. -/
def extract_urls (element : Html) : List UrlInfo :=
  let anchors := findAllDesc (fun e => tagIs e "a" && hasAttr e "href") element
  let step1 := anchors.foldl urlAnchorStep ([], [])
  let found := scanUrls (getTextRaw element).data
  (found.foldl urlTextStep step1).1

/-! ## File classification and attachments -/

/-- Model of `_get_file_type`: the fixed extension table, checked in the
source's insertion order. -/
def get_file_type (filename : String) : String :=
  let fl := lowerStr filename
  if [".pdf", ".doc", ".docx", ".txt", ".rtf", ".odt"].any (fun e => endsWithStr fl e) then "Document"
  else if [".xls", ".xlsx", ".csv", ".ods"].any (fun e => endsWithStr fl e) then "Spreadsheet"
  else if [".ppt", ".pptx", ".odp"].any (fun e => endsWithStr fl e) then "Presentation"
  else if [".jpg", ".jpeg", ".png", ".gif", ".bmp", ".svg", ".webp"].any (fun e => endsWithStr fl e) then "Image"
  else if [".mp4", ".avi", ".mov", ".wmv", ".flv", ".mkv"].any (fun e => endsWithStr fl e) then "Video"
  else if [".mp3", ".wav", ".ogg", ".m4a", ".flac"].any (fun e => endsWithStr fl e) then "Audio"
  else if [".zip", ".rar", ".7z", ".tar", ".gz"].any (fun e => endsWithStr fl e) then "Archive"
  else if [".py", ".js", ".html", ".css", ".java", ".cpp", ".c", ".h"].any (fun e => endsWithStr fl e) then "Code"
  else "Other"

def hexVal (c : Char) : Option Nat :=
  if '0' ≤ c ∧ c ≤ '9' then some (c.toNat - 48)
  else if 'a' ≤ c ∧ c ≤ 'f' then some (c.toNat - 87)
  else if 'A' ≤ c ∧ c ≤ 'F' then some (c.toNat - 55)
  else none

/-- Model of `urllib.parse.unquote` (ASCII byte decoding; multi-byte
UTF-8 sequences are out of scope of the claims). -/
def unquoteL : List Char → List Char
  | '%' :: a :: b :: rest =>
    match hexVal a, hexVal b with
    | some x, some y => Char.ofNat (16 * x + y) :: unquoteL rest
    | _, _ => '%' :: unquoteL (a :: b :: rest)
  | c :: rest => c :: unquoteL rest
  | [] => []

/-- Model of `_extract_filename_from_url`: the percent-decoded last path
segment, if it contains a dot; else "Unknown". -/
def extract_filename_from_url (url : String) : String :=
  match urlparseModel url.data with
  | none => "Unknown"
  | some (_, path) =>
    let fn : List Char := unquoteL ((splitOnPred (fun c => c == '/') path.data).getLastD [])
    if fn ≠ [] ∧ fn.contains '.' then ⟨fn⟩ else "Unknown"

structure AttachmentInfo where
  filename : String
  url : String
  size : String
  fileType : String
deriving DecidableEq, Repr

/-- Model of `_parse_attachment_element`. -/
def parse_attachment_element (e : Html) : Option AttachmentInfo :=
  let fromAttrs : Option String :=
    (["title", "data-filename", "data-file", "aria-label"].filterMap
      (fun a => match getAttr e a with
        | some v => if v ≠ "" then some v else none
        | none => none)).head?
  let filename? : Option String :=
    match fromAttrs with
    | some f => some f
    | none =>
      let t := getTextS e
      if t ≠ "" ∧ t.length < 200 then some t else none
  let url? : Option String :=
    if tagIs e "a" ∧ getAttrD e "href" "" ≠ "" then getAttr e "href"
    else
      match findFirst (fun x => tagIs x "a" && hasAttr x "href") e with
      | some link => getAttr link "href"
      | none => none
  let size : String :=
    match findFirst (fun x => (tagIs x "span" || tagIs x "div") &&
        classContainsAnyCI x ["size", "filesize"]) e with
    | some se => getTextS se
    | none => "Unknown"
  if filename?.isSome ∨ (url?.getD "" ≠ "") then
    some { filename := filename?.getD "Unknown",
           url := url?.getD "",
           size := size,
           fileType := get_file_type (filename?.getD (url?.getD "")) }
  else none

/-- Strategy 1 of `_extract_attachments`: the four attachment-class
selectors in order, each appending every parsed hit unconditionally. -/
def attachMethod1 (element : Html) : List AttachmentInfo :=
  let pats : List (Html → Bool) :=
    [ fun e => tagIs e "div" && classContainsAnyCI e ["attachment", "file", "document"],
      fun e => tagIs e "span" && classContainsAnyCI e ["attachment", "file", "document"],
      fun e => tagIs e "a" && classContainsAnyCI e ["attachment", "file", "document"],
      fun e => tagIs e "li" && classContainsAnyCI e ["attachment", "file", "document"] ]
  pats.flatMap (fun p => (findAllDesc p element).filterMap parse_attachment_element)

/-- Strategy 2 of `_extract_attachments`: icon-like elements, parsing
the containing element, appended only if not already collected. -/
def attachStep2 (element : Html) (acc : List AttachmentInfo) : List AttachmentInfo :=
  let icons := findAllDesc (fun e =>
    (tagIs e "img" || tagIs e "i" || tagIs e "span") &&
      classContainsAnyCI e ["icon", "file-icon"]) element
  icons.foldl (fun acc icon =>
    match parentOf element icon with
    | some parent =>
      match parse_attachment_element parent with
      | some info => if info ∈ acc then acc else acc ++ [info]
      | none => acc
    | none => acc) acc

def downloadExts : List String :=
  [".pdf", ".doc", ".docx", ".xls", ".xlsx", ".ppt", ".pptx",
   ".zip", ".rar", ".txt", ".csv", ".jpg", ".png", ".gif", ".mp4"]

/-- Strategy 3 of `_extract_attachments`: download-style hyperlinks,
appended only if not already collected. -/
def attachStep3 (element : Html) (acc : List AttachmentInfo) : List AttachmentInfo :=
  let links := findAllDesc (fun e => tagIs e "a" && hasAttr e "href") element
  links.foldl (fun acc link =>
    let href := getAttrD link "href" ""
    if containsStr (lowerStr href) "download" ∨
        downloadExts.any (fun ext => containsStr (lowerStr href) ext) then
      let info : AttachmentInfo :=
        { filename := extract_filename_from_url href,
          url := href,
          size := "Unknown",
          fileType := get_file_type href }
      if info ∈ acc then acc else acc ++ [info]
    else acc) acc

/-- Model of `_extract_attachments`: the three strategies appending to
one shared list. -/
def extract_attachments (element : Html) : List AttachmentInfo :=
  attachStep3 element (attachStep2 element (attachMethod1 element))

/-! ## Timestamp parsing (model of `_parse_timestamp`)

`datetime.strptime` is modelled per format directive, following the
regexes CPython's `_strptime` builds (1-2 digit fields with range
alternations, 4-digit year, 1-6 digit fractions, `\s+` for whitespace,
case-insensitive literals); a full match is required, and an
out-of-range date (e.g. February 30) raises at `datetime` construction,
which the source catches before trying the next format.  The
`pd.to_datetime` last resort is a library call modelled as failing: no
claim concerns strings parseable only by that fallback. -/

def digitVal (c : Char) : Option Nat :=
  if '0' ≤ c ∧ c ≤ '9' then some (c.toNat - 48) else none

def takeDigitsExact : Nat → Nat → List Char → Option (Nat × List Char)
  | 0, acc, l => some (acc, l)
  | n + 1, acc, c :: rest =>
    match digitVal c with
    | some d => takeDigitsExact n (acc * 10 + d) rest
    | none => none
  | _ + 1, _, [] => none

/-- A 1-2 digit numeric field with an inclusive range, two digits
preferred (the shape of CPython's alternation regexes for `%m`, `%d`,
`%H`, `%M`, `%S`, `%I`). -/
def take2Range (lo hi : Nat) : List Char → Option (Nat × List Char)
  | a :: b :: rest =>
    match digitVal a, digitVal b with
    | some x, some y =>
      let v2 := 10 * x + y
      if lo ≤ v2 ∧ v2 ≤ hi then some (v2, rest)
      else if lo ≤ x ∧ x ≤ hi then some (x, b :: rest)
      else none
    | some x, none => if lo ≤ x ∧ x ≤ hi then some (x, b :: rest) else none
    | none, _ => none
  | [a] =>
    match digitVal a with
    | some x => if lo ≤ x ∧ x ≤ hi then some (x, []) else none
    | none => none
  | [] => none

def spanDigits : List Char → List Char × List Char
  | [] => ([], [])
  | c :: rest =>
    if (digitVal c).isSome then
      let (tk, rm) := spanDigits rest
      (c :: tk, rm)
    else ([], c :: rest)

def digitsValue (l : List Char) : Nat :=
  l.foldl (fun acc c => acc * 10 + ((digitVal c).getD 0)) 0

/-- `%f`: 1-6 digits, right-padded to microseconds. -/
def takeFrac (l : List Char) : Option (Nat × List Char) :=
  let (ds, rm) := spanDigits l
  if ds.isEmpty then none
  else
    let ds6 := ds.take 6
    some (digitsValue ds6 * 10 ^ (6 - ds6.length), ds.drop 6 ++ rm)

/-- `%p`: `AM` or `PM`, case-insensitively; returns whether it was PM. -/
def takeAmPm : List Char → Option (Bool × List Char)
  | a :: b :: rest =>
    let low := [asciiLowerChar a, asciiLowerChar b]
    if low = ['a', 'm'] then some (false, rest)
    else if low = ['p', 'm'] then some (true, rest)
    else none
  | _ => none

inductive FTok where
  | Y | Mo | D | H24 | Mi | Se | H12 | AmPm | Frac | Ws
  | lit (c : Char)

structure TParts where
  y : Nat
  mo : Nat
  d : Nat
  h : Nat
  mi : Nat
  s : Nat
  us : Nat
  pm : Bool
  usedAmPm : Bool
deriving Repr

def initParts : TParts := ⟨1900, 1, 1, 0, 0, 0, 0, false, false⟩

def runFmt : List FTok → TParts → List Char → Option TParts
  | [], parts, [] => some parts
  | [], _, _ :: _ => none
  | t :: ts, parts, l =>
    match t with
    | .Y => (takeDigitsExact 4 0 l).bind (fun r => runFmt ts { parts with y := r.1 } r.2)
    | .Mo => (take2Range 1 12 l).bind (fun r => runFmt ts { parts with mo := r.1 } r.2)
    | .D => (take2Range 1 31 l).bind (fun r => runFmt ts { parts with d := r.1 } r.2)
    | .H24 => (take2Range 0 23 l).bind (fun r => runFmt ts { parts with h := r.1 } r.2)
    | .Mi => (take2Range 0 59 l).bind (fun r => runFmt ts { parts with mi := r.1 } r.2)
    | .Se => (take2Range 0 61 l).bind (fun r => runFmt ts { parts with s := r.1 } r.2)
    | .H12 => (take2Range 1 12 l).bind (fun r => runFmt ts { parts with h := r.1 } r.2)
    | .AmPm => (takeAmPm l).bind (fun r => runFmt ts { parts with pm := r.1, usedAmPm := true } r.2)
    | .Frac => (takeFrac l).bind (fun r => runFmt ts { parts with us := r.1 } r.2)
    | .Ws =>
      match l with
      | c :: rest => if isWsChar c then runFmt ts parts (rest.dropWhile isWsChar) else none
      | [] => none
    | .lit c =>
      match l with
      | x :: rest => if asciiLowerChar x == asciiLowerChar c then runFmt ts parts rest else none
      | [] => none

def isLeapYear (y : Nat) : Bool := y % 4 == 0 && (y % 100 != 0 || y % 400 == 0)

def daysInMonth (y m : Nat) : Nat :=
  if m = 2 then (if isLeapYear y then 29 else 28)
  else if m ∈ [4, 6, 9, 11] then 30
  else 31

/-- Days since 1970-01-01 of a civil date (Howard Hinnant's
`days_from_civil`; all intermediate divisions are on non-negative
values, so `Int` truncated division agrees with floor division). -/
def daysFromCivil (y : Int) (m d : Nat) : Int :=
  let y' : Int := if (m : Int) ≤ 2 then y - 1 else y
  let era : Int := (if y' ≥ 0 then y' else y' - 399) / 400
  let yoe : Int := y' - era * 400
  let mp : Int := if (m : Int) > 2 then (m : Int) - 3 else (m : Int) + 9
  let doy : Int := (153 * mp + 2) / 5 + (d : Int) - 1
  let doe : Int := yoe * 365 + yoe / 4 - yoe / 100 + doy
  era * 146097 + doe - 719468

/-- Validation performed by the `datetime` constructor, then conversion
to microseconds since the epoch (our canonical instant). -/
def validateConvert (p : TParts) : Option Int :=
  if p.d ≤ daysInMonth p.y p.mo ∧ p.s ≤ 59 then
    let h : Nat := if p.usedAmPm then p.h % 12 + (if p.pm then 12 else 0) else p.h
    some (((daysFromCivil (p.y : Int) p.mo p.d) * 86400 +
      (h : Int) * 3600 + (p.mi : Int) * 60 + (p.s : Int)) * 1000000 + (p.us : Int))
  else none

/-- The source's fixed format list, in order. -/
def fmtList : List (List FTok) :=
  [ [.Y, .lit '-', .Mo, .lit '-', .D, .Ws, .H24, .lit ':', .Mi, .lit ':', .Se],
    [.Y, .lit '-', .Mo, .lit '-', .D, .lit 'T', .H24, .lit ':', .Mi, .lit ':', .Se],
    [.Y, .lit '-', .Mo, .lit '-', .D, .lit 'T', .H24, .lit ':', .Mi, .lit ':', .Se, .lit '.', .Frac],
    [.Y, .lit '-', .Mo, .lit '-', .D, .lit 'T', .H24, .lit ':', .Mi, .lit ':', .Se, .lit 'Z'],
    [.Y, .lit '-', .Mo, .lit '-', .D, .lit 'T', .H24, .lit ':', .Mi, .lit ':', .Se, .lit '.', .Frac, .lit 'Z'],
    [.Mo, .lit '/', .D, .lit '/', .Y, .Ws, .H24, .lit ':', .Mi, .lit ':', .Se],
    [.Mo, .lit '/', .D, .lit '/', .Y, .Ws, .H12, .lit ':', .Mi, .lit ':', .Se, .Ws, .AmPm],
    [.D, .lit '/', .Mo, .lit '/', .Y, .Ws, .H24, .lit ':', .Mi, .lit ':', .Se],
    [.Y, .lit '-', .Mo, .lit '-', .D, .Ws, .H24, .lit ':', .Mi],
    [.Mo, .lit '/', .D, .lit '/', .Y, .Ws, .H24, .lit ':', .Mi] ]

/-- Model of `_parse_timestamp`: strip, try the fixed formats in order,
first success wins; the pandas last resort is modelled as failing. -/
def parse_timestamp (time_str : String) : Option Int :=
  if time_str = "" then none
  else
    (fmtList.filterMap
      (fun f => (runFmt f initParts (trimStr time_str).data).bind validateConvert)).head?

/-! ## Field extractors -/

def timePats : List (Html → Bool) :=
  [ fun e => tagIs e "time",
    fun e => tagIs e "span" && classContainsAnyCI e ["time", "date", "timestamp"],
    fun e => tagIs e "div" && classContainsAnyCI e ["time", "date", "timestamp"] ]

def tryTimePats : List (Html → Bool) → Html → Option Int
  | [], _ => none
  | p :: ps, e =>
    match findFirst p e with
    | some te =>
      match parse_timestamp (getTextS te) with
      | some t => some t
      | none => tryTimePats ps e
    | none => tryTimePats ps e

def tryTimeAttrs : List String → Html → Option Int
  | [], _ => none
  | a :: as', e =>
    match getAttr e a with
    | some v =>
      if v ≠ "" then
        match parse_timestamp v with
        | some t => some t
        | none => tryTimeAttrs as' e
      else tryTimeAttrs as' e
    | none => tryTimeAttrs as' e

/-- Model of `_extract_timestamp`: time-like descendants first, then
the fixed datetime-bearing attributes. -/
def extract_timestamp (element : Html) : Option Int :=
  match tryTimePats timePats element with
  | some t => some t
  | none => tryTimeAttrs ["datetime", "data-timestamp", "data-time"] element

def senderPats : List (Html → Bool) :=
  [ fun e => tagIs e "span" && classContainsAnyCI e ["sender", "from", "author", "name"],
    fun e => tagIs e "div" && classContainsAnyCI e ["sender", "from", "author", "name"],
    fun e => tagIs e "strong",
    fun e => tagIs e "b" ]

def trySenderPats : List (Html → Bool) → Html → Option String
  | [], _ => none
  | p :: ps, e =>
    match findFirst p e with
    | some se =>
      let sender := getTextS se
      if sender ≠ "" ∧ sender.length < 100 then some sender else trySenderPats ps e
    | none => trySenderPats ps e

/-- Model of `_extract_sender`. -/
def extract_sender (element : Html) : String :=
  (trySenderPats senderPats element).getD "Unknown"

/-- Model of `_extract_recipient` (the found element's text is returned
unconditionally, even when empty). -/
def extract_recipient (element : Html) : String :=
  match findFirst (fun e => (tagIs e "span" || tagIs e "div") &&
      classContainsAnyCI e ["recipient", "to"]) element with
  | some re' => getTextS re'
  | none => "Unknown"

def messagePats : List (Html → Bool) :=
  [ fun e => tagIs e "div" && classContainsAnyCI e ["message-content", "msg-content", "content", "body", "text"],
    fun e => tagIs e "p" && classContainsAnyCI e ["message", "msg", "text"],
    fun e => tagIs e "span" && classContainsAnyCI e ["message", "msg", "text"] ]

def tryMessagePats : List (Html → Bool) → Html → Option String
  | [], _ => none
  | p :: ps, e =>
    match findFirst p e with
    | some me =>
      let text := getTextS me
      if text ≠ "" then some text else tryMessagePats ps e
    | none => tryMessagePats ps e

/-- Model of `_extract_message_text`: specific content selectors, then
the full text of the element; an empty result yields `none`. -/
def extract_message_text (element : Html) : Option String :=
  match tryMessagePats messagePats element with
  | some t => some t
  | none =>
    let text := getTextS element
    if text ≠ "" then some text else none

/-! ## Records, fingerprint, statistics, per-element extraction -/

/-- One normalized message record.  The Python code stores the URL and
attachment lists together with values derived from them (formatted
strings, counts, flags); the lists themselves are kept here, the
derived values being functions of them. -/
structure MessageRecord where
  index : Nat
  timestamp : Option Int
  sender : String
  recipient : String
  message : String
  urls : List UrlInfo
  attachments : List AttachmentInfo
  message_hash : String
deriving DecidableEq, Repr

/-- Python's `f"{timestamp}"` interpolation of the timestamp field
(`str(datetime)` for a parsed instant, `"None"` for an absent one). -/
def pyStrOfTimestamp : Option Int → String
  | none => "None"
  | some t => toString t

/-- Model of `_generate_hash`: the source MD5-hashes the concatenation
`f"{timestamp}{sender}{message}"`.  MD5 is a deterministic function of
that string, so the fingerprint is modelled by the pre-image string
itself; every claim proved here uses only that equal inputs produce
equal digests, and fingerprint distinctness is stated on these modelled
values. -/
def generate_hash (timestamp : Option Int) (sender message : String) : String :=
  pyStrOfTimestamp timestamp ++ sender ++ message

/-- The run statistics counters touched by the pipeline core
(`processing_time`, a wall-clock quantity, is not modelled). -/
structure Stats where
  total_messages : Nat
  duplicates_removed : Nat
  timestamp_drifts : Nat
  errors : Nat
  urls_extracted : Nat
  attachments_found : Nat
  messages_with_urls : Nat
  messages_with_attachments : Nat
deriving DecidableEq, Repr

def initStats : Stats := ⟨0, 0, 0, 0, 0, 0, 0, 0⟩

/-- Model of `_extract_message_data`: extracts every field, updates the
URL/attachment statistics unconditionally, and produces a record only
when the message body is non-empty. -/
def extract_message_data (stats : Stats) (element : Html) (index : Nat) :
    Option MessageRecord × Stats :=
  let timestamp := extract_timestamp element
  let sender := extract_sender element
  let recipient := extract_recipient element
  let message := extract_message_text element
  let urls := extract_urls element
  let attachments := extract_attachments element
  let stats1 :=
    if urls.isEmpty then stats
    else { stats with
            urls_extracted := stats.urls_extracted + urls.length,
            messages_with_urls := stats.messages_with_urls + 1 }
  let stats2 :=
    if attachments.isEmpty then stats1
    else { stats1 with
            attachments_found := stats1.attachments_found + attachments.length,
            messages_with_attachments := stats1.messages_with_attachments + 1 }
  match message with
  | some msg =>
    (some { index := index, timestamp := timestamp, sender := sender,
            recipient := recipient, message := msg, urls := urls,
            attachments := attachments,
            message_hash := generate_hash timestamp sender msg }, stats2)
  | none => (none, stats2)

/-! ## Structure discovery (model of `_find_message_elements`) -/

def selPreds : List (Html → Bool) :=
  [ fun e => tagIs e "div" && classHasToken e "message",
    fun e => tagIs e "div" && classHasToken e "chat-message",
    fun e => tagIs e "div" && classHasToken e "msg",
    fun e => tagIs e "tr" && classHasToken e "message-row",
    fun e => tagIs e "div" && attrIs e "data-type" "message",
    fun e => tagIs e "div" && classContainsAnyCI e ["MessageCard", "message-card"] ]

def loosePred (e : Html) : Bool :=
  tagIs e "div" && classContainsAnyCI e ["message", "msg", "chat"]

def firstNonEmptySel (soup : Html) : List (Html → Bool) → Option (List Html)
  | [] => none
  | p :: ps =>
    let es := findAllDesc p soup
    if es.isEmpty then firstNonEmptySel soup ps else some es

/-- Model of `_find_message_elements`: the named selectors in order,
first non-empty result wins; then the loose class-substring fallback;
then every `div`. -/
def find_message_elements (soup : Html) : List Html :=
  match firstNonEmptySel soup selPreds with
  | some es => es
  | none =>
    let es := findAllDesc loosePred soup
    if es.isEmpty then findAllDesc (fun e => tagIs e "div") soup else es

/-- The per-element loop of `parse_html`.  The model is total: no
exception is raised during a single element's extraction (every
sub-extraction in the source is best-effort), so the `except` branch
that increments the `errors` counter is never taken; an element whose
extraction returns no record is skipped silently. -/
def parseLoop (stats : Stats) : Nat → List Html → List MessageRecord × Stats
  | _, [] => ([], stats)
  | idx, e :: es =>
    let (mrec, stats') := extract_message_data stats e idx
    let (rest, stats'') := parseLoop stats' (idx + 1) es
    (match mrec with
     | some r => r :: rest
     | none => rest, stats'')

/-- Model of `parse_html`: discover the message elements, extract each,
record the total. -/
def parse_html (soup : Html) (stats : Stats) : List MessageRecord × Stats :=
  let (records, stats') := parseLoop stats 0 (find_message_elements soup)
  (records, { stats' with total_messages := records.length })

/-! ## Deduplicator (model of `remove_duplicates`) -/

/-- The effect of `df.drop_duplicates(subset=['message_hash'],
keep='first')`: scan in order, keeping a record only when its hash was
not seen before. -/
def dedupAux (seen : List String) : List MessageRecord → List MessageRecord
  | [] => []
  | r :: rs =>
    if r.message_hash ∈ seen then dedupAux seen rs
    else r :: dedupAux (r.message_hash :: seen) rs

/-- Model of `remove_duplicates`: the deduplicated list and the number
of removed records (`initial_count - final_count`). -/
def remove_duplicates (rs : List MessageRecord) : List MessageRecord × Nat :=
  (dedupAux [] rs, rs.length - (dedupAux [] rs).length)

/-- Spec-side reference function (for the refinement statement of the
deduplication contract): keep a record exactly when no record earlier
in the original sequence has the same fingerprint, i.e. for each
distinct fingerprint only the first record in original order. -/
def keepFirstsAux (pre : List MessageRecord) : List MessageRecord → List MessageRecord
  | [] => []
  | r :: rs =>
    if pre.all (fun p => p.message_hash != r.message_hash) then
      r :: keepFirstsAux (pre ++ [r]) rs
    else keepFirstsAux (pre ++ [r]) rs

def keepFirsts (rs : List MessageRecord) : List MessageRecord := keepFirstsAux [] rs

/-! ## Drift detector (model of `check_timestamp_drift`) -/

/-- The drift condition on one pandas `diff` entry: the difference of
two datetimes is defined only when both are present, and the record is
flagged when `time_diff < timedelta(seconds=-threshold_seconds)`
(timestamps are in microseconds). -/
def driftFlag (thresholdSeconds : Int) (prev cur : Option Int) : Bool :=
  match prev, cur with
  | some p, some t => decide (t - p < -(thresholdSeconds * 1000000))
  | _, _ => false

/-- `df['time_diff'] = df['timestamp'].diff()` followed by the flag
comparison: each record is paired with the flag computed from its
immediate predecessor's timestamp (`NaT` differences compare `False`). -/
def flagDrift (thresholdSeconds : Int) : Option Int → List MessageRecord →
    List (MessageRecord × Bool)
  | _, [] => []
  | prev, r :: rs =>
    (r, driftFlag thresholdSeconds prev r.timestamp) ::
      flagDrift thresholdSeconds r.timestamp rs

def idxLE (a b : MessageRecord) : Prop := a.index ≤ b.index

instance : DecidableRel idxLE := fun a b => Nat.decLe a.index b.index

/-- Chronological order on flagged records: absent timestamps sort
last.  `sort_values` ranks `NaT` after every datetime
(`na_position='last'`). -/
def tsLEb (a b : MessageRecord × Bool) : Bool :=
  match a.1.timestamp, b.1.timestamp with
  | none, none => true
  | none, some _ => false
  | some _, none => true
  | some x, some y => decide (x ≤ y)

def tsLE (a b : MessageRecord × Bool) : Prop := tsLEb a b = true

instance : DecidableRel tsLE :=
  fun a b => inferInstanceAs (Decidable (tsLEb a b = true))

/-- Model of `check_timestamp_drift`.  When every timestamp is absent
the source sets the flag to `False` on every row and returns without
re-ordering; otherwise it sorts by original index, computes the diffs
and flags, and re-sorts by timestamp for output.  The two `sort_values`
calls are modelled with a sort; the pipeline's indices are unique, so
the index sort is order-determined, while tie order in the timestamp
sort is not guaranteed stable by pandas (`kind='quicksort'`) — no
theorem below relies on the model's tie order. -/
def check_timestamp_drift (thresholdSeconds : Int) (rs : List MessageRecord) :
    List (MessageRecord × Bool) :=
  if rs.all (fun r => r.timestamp.isNone) then rs.map (fun r => (r, false))
  else
    let sorted := List.insertionSort idxLE rs
    let flagged := flagDrift thresholdSeconds none sorted
    List.insertionSort tsLE flagged

/-- Spec-side reference function (for the comparison stated in the
drift claims): the spec says absent timestamps "do not break the
chain: the next defined-timestamp record is compared against the
nearest preceding record that had a timestamp", so the carried
predecessor timestamp is only replaced when a defined timestamp is
seen. -/
def flagDriftChainSpec (thresholdSeconds : Int) : Option Int → List MessageRecord →
    List (MessageRecord × Bool)
  | _, [] => []
  | prev, r :: rs =>
    let flag := driftFlag thresholdSeconds prev r.timestamp
    let prev' := match r.timestamp with
      | some t => some t
      | none => prev
    (r, flag) :: flagDriftChainSpec thresholdSeconds prev' rs

/-! ## Concrete inputs used in examples -/

/-- A record as the extractor would build it (well-formed fingerprint),
with the given index, canonical timestamp (microseconds) and body. -/
def mkRec (i : Nat) (ts : Option Int) (body : String) : MessageRecord :=
  { index := i, timestamp := ts, sender := "A", recipient := "B", message := body,
    urls := [], attachments := [], message_hash := generate_hash ts "A" body }

/-- Original-order timestamps `[T, T+10s, T-400s, T-390s]` with `T = 0`
(timestamps in microseconds). -/
def driftExample : List MessageRecord :=
  [mkRec 0 (some 0) "a", mkRec 1 (some 10000000) "b",
   mkRec 2 (some (-400000000)) "c", mkRec 3 (some (-390000000)) "d"]

/-- Expected drift output for `driftExample`: chronological order
`[T-400s, T-390s, T, T+10s]`, only the record of original index 2
flagged. -/
def driftExampleOut : List (MessageRecord × Bool) :=
  [(mkRec 2 (some (-400000000)) "c", true), (mkRec 3 (some (-390000000)) "d", false),
   (mkRec 0 (some 0) "a", false), (mkRec 1 (some 10000000) "b", false)]

def chainRec0 : MessageRecord := mkRec 0 (some 0) "a"

def chainRec1 : MessageRecord := mkRec 1 none "b"

def chainRec2 : MessageRecord := mkRec 2 (some (-400000000)) "c"

/-- A defined timestamp, an absent one, then a timestamp 400s in the
past: the chain-skipping reading would flag the third record. -/
def chainExample : List MessageRecord := [chainRec0, chainRec1, chainRec2]

/-- Two records with identical timestamp, sender and body but different
URL and attachment lists. -/
def c4recA : MessageRecord :=
  { index := 0, timestamp := some 0, sender := "Alice", recipient := "Unknown",
    message := "hello", urls := [⟨"http://a.example/x", "link", "Web"⟩],
    attachments := [], message_hash := generate_hash (some 0) "Alice" "hello" }

def c4recB : MessageRecord :=
  { index := 1, timestamp := some 0, sender := "Alice", recipient := "Unknown",
    message := "hello", urls := [],
    attachments := [⟨"f.pdf", "", "Unknown", "Document"⟩],
    message_hash := generate_hash (some 0) "Alice" "hello" }

/-- A discovered message element whose entire text is whitespace. -/
def wsElem : Html := .elem "div" [("class", "message")] [.text "   "]

def wsSoup : Html := .elem "html" [] [wsElem]

def spanCardElem : Html := .elem "span" [("class", "Chat-Message-Card")] [.text "hi"]

/-- A document whose only candidate is a `span` with class
`Chat-Message-Card`. -/
def exSpanCard : Html := .elem "html" [] [spanCardElem]

def divCardElem : Html := .elem "div" [("class", "Chat-Message-Card")] [.text "hi"]

/-- A document whose only candidate is a `div` with class
`Chat-Message-Card`. -/
def exDivCard : Html := .elem "html" [] [divCardElem]

def looseDivElem : Html := .elem "div" [("class", "my-chat-row")] [.text "hi"]

/-- A document matched by no named selector but caught by the loose
`message|msg|chat` substring fallback. -/
def exLooseDoc : Html := .elem "html" [] [looseDivElem]

/-- Two distinct structural children yielding identical attachment
entries through strategy 1. -/
def exDupAttach : Html :=
  .elem "div" []
    [.elem "div" [("class", "attachment"), ("title", "report.pdf")] [],
     .elem "div" [("class", "attachment"), ("title", "report.pdf")] []]

def dupInfo : AttachmentInfo := ⟨"report.pdf", "", "Unknown", "Document"⟩

def exSingleAttach : Html :=
  .elem "div" [] [.elem "div" [("class", "attachment"), ("title", "notes.txt")] []]

/-- An element with a URL and attachments but no visible text at all. -/
def exC10 : Html :=
  .elem "div" []
    [.elem "a" [("href", "http://example.com/f.pdf")] [],
     .elem "span" [("class", "attachment"), ("title", "f.pdf")] []]

/-! # Theorems -/

/-! ## Drift helper lemmas -/

theorem driftFlag_none_left (θ : Int) (c : Option Int) : driftFlag θ none c = false := by
  cases c <;> rfl

theorem driftFlag_none_right (θ : Int) (p : Option Int) : driftFlag θ p none = false := by
  cases p <;> rfl

theorem flagDrift_length (θ : Int) : ∀ (prev : Option Int) (rs : List MessageRecord),
    (flagDrift θ prev rs).length = rs.length
  | _, [] => rfl
  | prev, r :: rs => by
    simp [flagDrift, flagDrift_length θ r.timestamp rs]

/-- Positional characterization of the pandas `diff`-based flags: the
entry at position `i` pairs the record there with the flag computed
from the immediately preceding record's timestamp (or the carried-in
predecessor for position 0). -/
theorem flagDrift_get? (θ : Int) : ∀ (prev : Option Int) (rs : List MessageRecord) (i : Nat),
    (flagDrift θ prev rs).get? i =
      (rs.get? i).map (fun r =>
        (r, driftFlag θ
          (if i = 0 then prev else (rs.get? (i - 1)).bind (fun x => x.timestamp))
          r.timestamp))
  | _, [], i => by simp [flagDrift]
  | prev, r :: rs, 0 => by simp [flagDrift]
  | prev, r :: rs, (i + 1) => by
    cases i with
    | zero =>
      have ih := flagDrift_get? θ r.timestamp rs 0
      simp only [flagDrift, List.get?_cons_succ, ih]
      simp
    | succ j =>
      have ih := flagDrift_get? θ r.timestamp rs (j + 1)
      simp only [flagDrift, List.get?_cons_succ, ih]
      simp

theorem flagDrift_mem_ts_none (θ : Int) : ∀ (prev : Option Int) (rs : List MessageRecord)
    (q : MessageRecord × Bool), q ∈ flagDrift θ prev rs → q.1.timestamp = none → q.2 = false
  | _, [], q => by simp [flagDrift]
  | prev, r :: rs, q => by
    intro hq hnone
    simp only [flagDrift, List.mem_cons] at hq
    rcases hq with h | h
    · subst h
      simp only at hnone ⊢
      rw [hnone, driftFlag_none_right]
    · exact flagDrift_mem_ts_none θ r.timestamp rs q h hnone

theorem check_drift_eq (θ : Int) (rs : List MessageRecord)
    (h : rs.all (fun r => r.timestamp.isNone) = false) :
    check_timestamp_drift θ rs =
      List.insertionSort tsLE (flagDrift θ none (List.insertionSort idxLE rs)) := by
  unfold check_timestamp_drift
  rw [if_neg]
  simp [h]

/-! ## C1: drift flagging against the immediate predecessor -/

/-- C1.  On a deduplicated record sequence in original document order
(sorted by index, at least one defined timestamp, non-negative
threshold), the drift detector's output is a permutation of the
original-order flagged list, in which a record is flagged exactly when
both it and its immediate predecessor have defined timestamps and its
timestamp precedes the predecessor's by more than the threshold;
forward gaps and first records are never flagged.  On the original-order
timestamps `[T, T+10s, T-400s, T-390s]` with threshold 300s, only the
third record is flagged and the output is chronologically ordered as
`[T-400s, T-390s, T, T+10s]`. -/
theorem drift_flags_backward_jumps (θ : Int) (rs : List MessageRecord)
    (hθ : 0 ≤ θ)
    (hsorted : List.Sorted idxLE rs)
    (hsome : rs.any (fun r => r.timestamp.isSome) = true) :
    (check_timestamp_drift θ rs).Perm (flagDrift θ none rs)
    ∧ (∀ i r r', rs.get? i = some r → rs.get? (i + 1) = some r' →
        (((flagDrift θ none rs).get? (i + 1)).map Prod.snd = some true ↔
          ∃ p t, r.timestamp = some p ∧ r'.timestamp = some t ∧ t - p < -(θ * 1000000)))
    ∧ (∀ i r r' p t, rs.get? i = some r → rs.get? (i + 1) = some r' →
        r.timestamp = some p → r'.timestamp = some t → p ≤ t →
        ((flagDrift θ none rs).get? (i + 1)).map Prod.snd = some false)
    ∧ (∀ r, rs.get? 0 = some r → (flagDrift θ none rs).get? 0 = some (r, false))
    ∧ check_timestamp_drift 300 driftExample = driftExampleOut := by
  have hall : rs.all (fun r => r.timestamp.isNone) = false := by
    rcases List.any_eq_true.mp hsome with ⟨r, hr, hS⟩
    have hN : r.timestamp.isNone = false := by
      cases h : r.timestamp <;> simp_all
    refine Bool.eq_false_iff.mpr (fun hA => ?_)
    have := List.all_eq_true.mp hA r hr
    simp [hN] at this
  refine ⟨?_, ?_, ?_, ?_, ?_⟩
  · rw [check_drift_eq θ rs hall, hsorted.insertionSort_eq]
    exact List.perm_insertionSort tsLE _
  · intro i r r' h1 h2
    rw [flagDrift_get? θ none rs (i + 1)]
    simp only [Nat.succ_ne_zero, if_false, Nat.add_sub_cancel, h1, h2, Option.some_bind,
      Option.map_some']
    cases hrt : r.timestamp with
    | none => simp [driftFlag]
    | some p =>
      cases hrt' : r'.timestamp with
      | none => simp [driftFlag]
      | some t => simp [driftFlag]
  · intro i r r' p t h1 h2 hp ht hle
    rw [flagDrift_get? θ none rs (i + 1)]
    simp only [Nat.succ_ne_zero, if_false, Nat.add_sub_cancel, h1, h2, Option.some_bind,
      Option.map_some', hp, ht, driftFlag]
    have hnn : (0 : Int) ≤ θ * 1000000 := mul_nonneg hθ (by norm_num)
    have : ¬ (t - p < -(θ * 1000000)) := by
      intro hlt
      have h0 : (0 : Int) ≤ t - p := sub_nonneg.mpr hle
      linarith
    simp [this]
  · intro r h0
    rw [flagDrift_get? θ none rs 0, h0]
    simp [driftFlag_none_left]
  · decide

/-- Witness for C1, at the spec's concrete example (threshold 300s,
original-order timestamps `[T, T+10s, T-400s, T-390s]`). -/
theorem drift_flags_backward_jumps_witness :
    check_timestamp_drift 300 driftExample = driftExampleOut :=
  (drift_flags_backward_jumps 300 driftExample (by decide) (by decide) (by decide)).2.2.2.2

/-! ## C2: absent timestamps and the comparison chain -/

/-- C2 counterexample.  For original-order timestamps
`[T, absent, T-400s]` (threshold 300s), the claimed chain-skipping
comparison (spec-side `flagDriftChainSpec`) flags the third record
(competing against the nearest preceding defined timestamp, 400s in the
future), but the code's `diff`-based detector flags nothing: the absent
timestamp breaks the chain. -/
theorem drift_chain_counterexample :
    (flagDriftChainSpec 300 none chainExample).map (fun p => (p.1.index, p.2)) =
      [(0, false), (1, false), (2, true)]
    ∧ (check_timestamp_drift 300 chainExample).map (fun p => (p.1.index, p.2)) =
      [(2, false), (0, false), (1, false)] := by
  exact ⟨by decide, by decide⟩

/-- C2 as amended.  A record with an absent timestamp is never flagged,
but absent timestamps DO break the comparison chain: a record whose
immediate predecessor in original order has an absent timestamp has no
defined difference and is never flagged, whatever earlier timestamps
were. -/
theorem drift_absent_breaks_chain (θ : Int) (rs : List MessageRecord) (i : Nat)
    (r r' : MessageRecord)
    (h1 : rs.get? i = some r) (h2 : rs.get? (i + 1) = some r')
    (h3 : r.timestamp = none) :
    (flagDrift θ none rs).get? (i + 1) = some (r', false)
    ∧ (∀ q ∈ check_timestamp_drift θ rs, q.1.timestamp = none → q.2 = false) := by
  constructor
  · rw [flagDrift_get? θ none rs (i + 1)]
    simp only [Nat.succ_ne_zero, if_false, Nat.add_sub_cancel, h1, h2, Option.some_bind,
      Option.map_some', h3, driftFlag_none_left]
  · intro q hq hnone
    unfold check_timestamp_drift at hq
    by_cases hall : rs.all (fun r => r.timestamp.isNone) = true
    · rw [if_pos hall] at hq
      rcases List.mem_map.mp hq with ⟨x, _, hx⟩
      rw [← hx]
    · rw [if_neg hall] at hq
      have hq' := (List.perm_insertionSort tsLE _).subset hq
      exact flagDrift_mem_ts_none θ none _ q hq' hnone

/-- Witness for C2 (amended): in `[T, absent, T-400s]` the record after
the absent-timestamp record carries flag `false`. -/
theorem drift_absent_breaks_chain_witness :
    (flagDrift 300 none chainExample).get? 2 = some (chainRec2, false) :=
  (drift_absent_breaks_chain 300 chainExample 1 chainRec1 chainRec2
    (by decide) (by decide) (by decide)).1

/-! ## C3: deduplication keeps the first record per fingerprint -/

theorem dedupAux_sublist (seen : List String) :
    ∀ rs : List MessageRecord, (dedupAux seen rs).Sublist rs
  | [] => List.Sublist.refl []
  | r :: rs => by
    unfold dedupAux
    by_cases hc : r.message_hash ∈ seen
    · rw [if_pos hc]
      exact (dedupAux_sublist seen rs).cons r
    · rw [if_neg hc]
      exact (dedupAux_sublist (r.message_hash :: seen) rs).cons₂ r

/-- The seen-set scan of `drop_duplicates` agrees with the spec-side
description "keep a record exactly when no earlier record has the same
fingerprint", whenever the seen set holds exactly the fingerprints of
the already-scanned prefix. -/
theorem dedupAux_eq_keepFirstsAux :
    ∀ (rs : List MessageRecord) (seen : List String) (pre : List MessageRecord),
      (∀ h, h ∈ seen ↔ ∃ p ∈ pre, p.message_hash = h) →
      dedupAux seen rs = keepFirstsAux pre rs
  | [], _, _, _ => rfl
  | r :: rs, seen, pre, hinv => by
    unfold dedupAux keepFirstsAux
    have hmem : r.message_hash ∈ seen ↔
        ¬ (pre.all (fun p => p.message_hash != r.message_hash) = true) := by
      rw [hinv]
      simp only [List.all_eq_true, bne_iff_ne, ne_eq, not_forall]
      constructor
      · rintro ⟨p, hp, he⟩
        exact ⟨p, hp, fun hne => hne he⟩
      · rintro ⟨p, hp, he⟩
        exact ⟨p, hp, by tauto⟩
    by_cases hc : r.message_hash ∈ seen
    · rw [if_pos hc, if_neg (by tauto)]
      apply dedupAux_eq_keepFirstsAux rs seen (pre ++ [r])
      intro h
      rw [hinv]
      constructor
      · rintro ⟨p, hp, he⟩
        exact ⟨p, List.mem_append_left _ hp, he⟩
      · rintro ⟨p, hp, he⟩
        rcases List.mem_append.mp hp with hp' | hp'
        · exact ⟨p, hp', he⟩
        · have hpr : p = r := List.mem_singleton.mp hp'
          subst hpr
          exact (hinv h).mp (he ▸ hc)
    · rw [if_neg hc, if_pos (by tauto)]
      congr 1
      apply dedupAux_eq_keepFirstsAux rs (r.message_hash :: seen) (pre ++ [r])
      intro h
      constructor
      · intro hmem'
        rcases List.mem_cons.mp hmem' with heq | hseen
        · exact ⟨r, List.mem_append_right _ (List.mem_singleton.mpr rfl), heq.symm⟩
        · rcases (hinv h).mp hseen with ⟨p, hp, he⟩
          exact ⟨p, List.mem_append_left _ hp, he⟩
      · rintro ⟨p, hp, he⟩
        rcases List.mem_append.mp hp with hp' | hp'
        · exact List.mem_cons.mpr (Or.inr ((hinv h).mpr ⟨p, hp', he⟩))
        · have hpr : p = r := List.mem_singleton.mp hp'
          subst hpr
          exact List.mem_cons.mpr (Or.inl he.symm)

/-- The number of kept records is the number of distinct fingerprints
not yet seen. -/
theorem dedupAux_length_card :
    ∀ (rs : List MessageRecord) (seen : List String),
      (dedupAux seen rs).length =
        (((rs.map (fun r => r.message_hash)).toFinset) \ seen.toFinset).card
  | [], seen => by simp [dedupAux]
  | r :: rs, seen => by
    unfold dedupAux
    by_cases hc : r.message_hash ∈ seen
    · rw [if_pos hc, dedupAux_length_card rs seen]
      congr 1
      simp only [List.map_cons, List.toFinset_cons]
      exact (Finset.insert_sdiff_of_mem _ (List.mem_toFinset.mpr hc)).symm
    · rw [if_neg hc]
      simp only [List.length_cons, dedupAux_length_card rs (r.message_hash :: seen),
        List.map_cons, List.toFinset_cons]
      rw [Finset.sdiff_insert, Finset.insert_sdiff_of_not_mem _ (by
        simpa using hc)]
      set U := (rs.map (fun r => r.message_hash)).toFinset \ seen.toFinset with hU
      by_cases ha : r.message_hash ∈ U
      · rw [Finset.insert_eq_self.mpr ha, Finset.card_erase_add_one ha]
      · rw [Finset.erase_eq_of_not_mem ha, Finset.card_insert_of_not_mem ha]

/-- C3.  `remove_duplicates` returns the subsequence of the input that
keeps, for each distinct fingerprint, only the first record in original
order (equal to the spec-side `keepFirsts` description, and a genuine
sublist, hence a stable filter), and reports as removed the difference
between the input length and the number of distinct fingerprints: `N`
records with `k` distinct fingerprints yield exactly `k` records. -/
theorem remove_duplicates_keeps_first (rs : List MessageRecord) :
    (remove_duplicates rs).1 = keepFirsts rs
    ∧ ((remove_duplicates rs).1).Sublist rs
    ∧ ((remove_duplicates rs).1).length = ((rs.map (fun r => r.message_hash)).toFinset).card
    ∧ (remove_duplicates rs).2 =
        rs.length - ((rs.map (fun r => r.message_hash)).toFinset).card := by
  have hlen : (dedupAux [] rs).length = ((rs.map (fun r => r.message_hash)).toFinset).card := by
    rw [dedupAux_length_card rs []]
    simp
  refine ⟨?_, dedupAux_sublist [] rs, hlen, ?_⟩
  · exact dedupAux_eq_keepFirstsAux rs [] [] (by simp)
  · simp only [remove_duplicates, hlen]

/-! ## C4: the fingerprint depends only on timestamp, sender and body -/

/-- C4.  For records whose fingerprint field was computed by
`_generate_hash` (as the extractor does), equal timestamp, sender and
body force equal fingerprints — the hash takes no other field as input
— and deduplicating the two records collapses them to the first one,
whatever their URL or attachment lists. -/
theorem fingerprint_ignores_links (r1 r2 : MessageRecord)
    (hw1 : r1.message_hash = generate_hash r1.timestamp r1.sender r1.message)
    (hw2 : r2.message_hash = generate_hash r2.timestamp r2.sender r2.message)
    (ht : r1.timestamp = r2.timestamp) (hs : r1.sender = r2.sender)
    (hb : r1.message = r2.message) :
    r1.message_hash = r2.message_hash
    ∧ (remove_duplicates [r1, r2]).1 = [r1]
    ∧ (remove_duplicates [r1, r2]).2 = 1 := by
  have heq : r1.message_hash = r2.message_hash := by
    rw [hw1, hw2, ht, hs, hb]
  refine ⟨heq, ?_, ?_⟩
  · simp [remove_duplicates, dedupAux, heq.symm]
  · simp [remove_duplicates, dedupAux, heq.symm]

/-- Witness for C4: two concrete records with identical
timestamp+sender+body but different URL lists and different attachment
lists still collapse to the first. -/
theorem fingerprint_ignores_links_witness :
    c4recA.urls ≠ c4recB.urls
    ∧ c4recA.attachments ≠ c4recB.attachments
    ∧ (remove_duplicates [c4recA, c4recB]).1 = [c4recA] :=
  ⟨by decide, by decide,
    (fingerprint_ignores_links c4recA c4recB rfl rfl rfl rfl rfl).2.1⟩

/-! ## C5: empty-body elements -/

theorem string_append_eq_empty {a b : String} (h : a ++ b = "") : a = "" ∧ b = "" := by
  have hd := congrArg String.data h
  rw [String.data_append] at hd
  have hn := List.append_eq_nil.mp hd
  exact ⟨String.ext hn.1, String.ext hn.2⟩

mutual

theorem getTextS_empty_desc : ∀ (e : Html), getTextS e = "" →
    ∀ (p : Html → Bool) (x : Html), x ∈ findAllDesc p e → getTextS x = ""
  | .text _, _, p, x, hx => by simp [findAllDesc] at hx
  | .elem t a cs, he, p, x, hx => by
    have he' : getTextSList cs = "" := he
    have hx' : x ∈ findAllList p cs := hx
    exact getTextS_empty_list cs he' p x hx'

theorem getTextS_empty_list : ∀ (cs : List Html), getTextSList cs = "" →
    ∀ (p : Html → Bool) (x : Html), x ∈ findAllList p cs → getTextS x = ""
  | [], _, p, x, hx => by simp [findAllList] at hx
  | c :: cs, he, p, x, hx => by
    have he' : getTextS c ++ getTextSList cs = "" := he
    have hsplit := string_append_eq_empty he'
    have hx' : x ∈ (if p c then [c] else []) ++ (findAllDesc p c ++ findAllList p cs) := by
      simpa [findAllList, List.append_assoc] using hx
    rcases List.mem_append.mp hx' with hh | ht
    · have : x = c := by
        by_cases hp : p c
        · rw [if_pos hp] at hh
          exact List.mem_singleton.mp hh
        · rw [if_neg hp] at hh
          simp at hh
      rw [this]
      exact hsplit.1
    · rcases List.mem_append.mp ht with h1 | h2
      · exact getTextS_empty_desc c hsplit.1 p x h1
      · exact getTextS_empty_list cs hsplit.2 p x h2

end

theorem findFirst_mem {p : Html → Bool} {e me : Html} (h : findFirst p e = some me) :
    me ∈ findAllDesc p e := by
  unfold findFirst at h
  cases hl : findAllDesc p e with
  | nil => rw [hl] at h; simp at h
  | cons y ys =>
    rw [hl] at h
    simp at h
    rw [← h]
    exact List.mem_cons_self y ys

/-- An element whose whole stripped text is empty yields no body: every
candidate body element's text is empty too, and the full-text fallback
is empty. -/
theorem extract_message_text_none (e : Html) (h : getTextS e = "") :
    extract_message_text e = none := by
  have hpats : ∀ ps, tryMessagePats ps e = none := by
    intro ps
    induction ps with
    | nil => rfl
    | cons p ps ih =>
      unfold tryMessagePats
      cases hf : findFirst p e with
      | none => exact ih
      | some me =>
        have hm : getTextS me = "" :=
          getTextS_empty_desc e h p me (findFirst_mem hf)
        simp [hm, ih]
  unfold extract_message_text
  rw [hpats messagePats]
  simp [h]

/-- C5 counterexample.  A discovered message element whose text is only
whitespace produces no record, and the run's `errors` counter is NOT
incremented for it: after processing the whole document the counter is
still zero (the counter counts exceptions only, and returning no record
is a normal path). -/
theorem empty_body_no_error_increment :
    (extract_message_data initStats wsElem 0).1 = none
    ∧ (parse_html wsSoup initStats).1 = []
    ∧ (parse_html wsSoup initStats).2.errors = 0 := by
  exact ⟨by decide, by decide, by decide⟩

/-- C5 as amended.  A structural element whose extracted body text
resolves to empty produces no record, but the extraction-error counter
is left unchanged rather than incremented (it counts only exceptions
raised during extraction). -/
theorem empty_body_discards_without_error (stats : Stats) (e : Html) (idx : Nat)
    (h : getTextS e = "") :
    extract_message_text e = none
    ∧ (extract_message_data stats e idx).1 = none
    ∧ (extract_message_data stats e idx).2.errors = stats.errors := by
  have hmt := extract_message_text_none e h
  refine ⟨hmt, ?_, ?_⟩
  · simp only [extract_message_data, hmt]
  · simp only [extract_message_data, hmt]
    split <;> split <;> rfl

/-- Witness for C5 (amended), at the whitespace-only element. -/
theorem empty_body_discards_without_error_witness :
    extract_message_text wsElem = none
    ∧ (extract_message_data initStats wsElem 5).1 = none
    ∧ (extract_message_data initStats wsElem 5).2.errors = initStats.errors :=
  empty_body_discards_without_error initStats wsElem 5 (by decide)

/-! ## C6: structure discovery order and fallbacks -/

theorem firstNonEmptySel_first :
    ∀ (ps : List (Html → Bool)) (soup : Html) (i : Nat) (hi : i < ps.length),
      (∀ j (hj : j < i), findAllDesc (ps.get ⟨j, Nat.lt_trans hj hi⟩) soup = []) →
      findAllDesc (ps.get ⟨i, hi⟩) soup ≠ [] →
      firstNonEmptySel soup ps = some (findAllDesc (ps.get ⟨i, hi⟩) soup)
  | [], _, i, hi, _, _ => absurd hi (Nat.not_lt_zero i)
  | p :: ps, soup, 0, hi, _, hne => by
    unfold firstNonEmptySel
    rw [if_neg (by simpa [List.isEmpty_iff] using hne)]
    rfl
  | p :: ps, soup, i + 1, hi, hprev, hne => by
    unfold firstNonEmptySel
    have h0 : findAllDesc p soup = [] := hprev 0 (Nat.succ_pos i)
    rw [if_pos (by simpa [List.isEmpty_iff] using h0)]
    exact firstNonEmptySel_first ps soup i (Nat.lt_of_succ_lt_succ hi)
      (fun j hj => hprev (j + 1) (Nat.succ_lt_succ hj)) hne

theorem firstNonEmptySel_none :
    ∀ (ps : List (Html → Bool)) (soup : Html),
      (∀ i (hi : i < ps.length), findAllDesc (ps.get ⟨i, hi⟩) soup = []) →
      firstNonEmptySel soup ps = none
  | [], _, _ => rfl
  | p :: ps, soup, hall => by
    unfold firstNonEmptySel
    have h0 : findAllDesc p soup = [] := hall 0 (Nat.succ_pos ps.length)
    rw [if_pos (by simpa [List.isEmpty_iff] using h0)]
    exact firstNonEmptySel_none ps soup (fun i hi => hall (i + 1) (Nat.succ_lt_succ hi))

/-- C6 counterexample.  A document with no element matching any named
hypothesis but containing an element (a `span`) with class
`Chat-Message-Card` is NOT discovered by the loose substring fallback:
both the loose fallback and the last-resort fallback consider only
`div` elements, so discovery returns nothing at all. -/
theorem discovery_span_card_counterexample :
    findAllDesc (fun e => attrIs e "class" "Chat-Message-Card") exSpanCard = [spanCardElem]
    ∧ (∀ i (hi : i < selPreds.length), findAllDesc (selPreds.get ⟨i, hi⟩) exSpanCard = [])
    ∧ findAllDesc loosePred exSpanCard = []
    ∧ find_message_elements exSpanCard = [] := by
  exact ⟨by decide, by decide, by decide, by decide⟩

/-- C6 as amended.  Discovery returns the matches of the first named
hypothesis with at least one match, never merging; if none matches it
falls back to the loose case-insensitive `message|msg|chat` class
substring match over `div` elements, and finally to every `div`.  A
`div` with class `Chat-Message-Card`, however, is already matched by
the sixth named hypothesis (case-insensitive `MessageCard|message-card`
regex), not by the loose fallback; a non-`div` element with that class
is matched by nothing (both fallbacks consider only `div`s).  A `div`
whose class loosely contains `chat` without matching any named
hypothesis is discovered by the loose fallback. -/
theorem discovery_first_match :
    (∀ (soup : Html) (i : Nat) (hi : i < selPreds.length),
       (∀ j (hj : j < i), findAllDesc (selPreds.get ⟨j, Nat.lt_trans hj hi⟩) soup = []) →
       findAllDesc (selPreds.get ⟨i, hi⟩) soup ≠ [] →
       find_message_elements soup = findAllDesc (selPreds.get ⟨i, hi⟩) soup)
    ∧ (∀ soup : Html,
       (∀ i (hi : i < selPreds.length), findAllDesc (selPreds.get ⟨i, hi⟩) soup = []) →
       findAllDesc loosePred soup ≠ [] →
       find_message_elements soup = findAllDesc loosePred soup)
    ∧ (∀ soup : Html,
       (∀ i (hi : i < selPreds.length), findAllDesc (selPreds.get ⟨i, hi⟩) soup = []) →
       findAllDesc loosePred soup = [] →
       find_message_elements soup = findAllDesc (fun e => tagIs e "div") soup)
    ∧ find_message_elements exDivCard = [divCardElem]
    ∧ findAllDesc (selPreds.get ⟨5, by decide⟩) exDivCard = [divCardElem]
    ∧ find_message_elements exLooseDoc = [looseDivElem]
    ∧ (∀ i (hi : i < selPreds.length), findAllDesc (selPreds.get ⟨i, hi⟩) exLooseDoc = []) := by
  refine ⟨?_, ?_, ?_, by decide, by decide, by decide, by decide⟩
  · intro soup i hi hprev hne
    unfold find_message_elements
    rw [firstNonEmptySel_first selPreds soup i hi hprev hne]
  · intro soup hall hne
    unfold find_message_elements
    rw [firstNonEmptySel_none selPreds soup hall]
    simp only
    rw [if_neg (by simpa [List.isEmpty_iff] using hne)]
  · intro soup hall hmt
    unfold find_message_elements
    rw [firstNonEmptySel_none selPreds soup hall]
    simp only
    rw [if_pos (by simpa [List.isEmpty_iff] using hmt)]

/-! ## C7: URL classification priority -/

/-- C7.  The classifier lower-cases and parses the URL and applies the
rules in the fixed order SharePoint hosts, Teams hosts, OneDrive hosts,
file-sharing hosts, meeting hosts, document extensions, media
extensions, else "Web"; when any host rule fires the path is irrelevant
(host rules take precedence over extension rules); an unparseable URL
yields "Unknown".  Concretely, the spec's three examples classify as
SharePoint, Document and Meeting. -/
theorem classify_url_priority :
    classify_url "https://contoso.sharepoint.com/sites/x" = "SharePoint"
    ∧ classify_url "https://example.com/report.pdf" = "Document"
    ∧ classify_url "https://zoom.us/j/123" = "Meeting"
    ∧ classify_url "http://[invalid.host/x" = "Unknown"
    ∧ (∀ domain path1 path2, anyHostRule domain = true →
        classify_hostpath domain path1 = classify_hostpath domain path2)
    ∧ (∀ domain path, sharePointHost domain = true →
        classify_hostpath domain path = "SharePoint")
    ∧ (∀ domain path, sharePointHost domain = false → teamsHost domain = true →
        classify_hostpath domain path = "Teams")
    ∧ (∀ domain path, sharePointHost domain = false → teamsHost domain = false →
        oneDriveHost domain = true → classify_hostpath domain path = "OneDrive")
    ∧ (∀ domain path, sharePointHost domain = false → teamsHost domain = false →
        oneDriveHost domain = false → fileSharingHost domain = true →
        classify_hostpath domain path = "File Sharing")
    ∧ (∀ domain path, sharePointHost domain = false → teamsHost domain = false →
        oneDriveHost domain = false → fileSharingHost domain = false →
        meetingHost domain = true → classify_hostpath domain path = "Meeting")
    ∧ (∀ domain path, anyHostRule domain = false → docExtPath path = true →
        classify_hostpath domain path = "Document")
    ∧ (∀ domain path, anyHostRule domain = false → docExtPath path = false →
        mediaExtPath path = true → classify_hostpath domain path = "Media")
    ∧ (∀ domain path, anyHostRule domain = false → docExtPath path = false →
        mediaExtPath path = false → classify_hostpath domain path = "Web") := by
  refine ⟨by decide, by decide, by decide, by decide, ?_, ?_, ?_, ?_, ?_, ?_, ?_, ?_, ?_⟩
  · intro d p1 p2 hh
    by_cases h1 : sharePointHost d <;> by_cases h2 : teamsHost d <;>
      by_cases h3 : oneDriveHost d <;> by_cases h4 : fileSharingHost d <;>
        by_cases h5 : meetingHost d <;>
          simp_all [classify_hostpath, anyHostRule]
  · intro d p h1
    simp [classify_hostpath, h1]
  · intro d p h1 h2
    simp [classify_hostpath, h1, h2]
  · intro d p h1 h2 h3
    simp [classify_hostpath, h1, h2, h3]
  · intro d p h1 h2 h3 h4
    simp [classify_hostpath, h1, h2, h3, h4]
  · intro d p h1 h2 h3 h4 h5
    simp [classify_hostpath, h1, h2, h3, h4, h5]
  · intro d p hh hd
    obtain ⟨⟨⟨⟨h1, h2⟩, h3⟩, h4⟩, h5⟩ :
        (((sharePointHost d = false ∧ teamsHost d = false) ∧ oneDriveHost d = false) ∧
          fileSharingHost d = false) ∧ meetingHost d = false := by
      simpa [anyHostRule] using hh
    simp [classify_hostpath, h1, h2, h3, h4, h5, hd]
  · intro d p hh hd hm
    obtain ⟨⟨⟨⟨h1, h2⟩, h3⟩, h4⟩, h5⟩ :
        (((sharePointHost d = false ∧ teamsHost d = false) ∧ oneDriveHost d = false) ∧
          fileSharingHost d = false) ∧ meetingHost d = false := by
      simpa [anyHostRule] using hh
    simp [classify_hostpath, h1, h2, h3, h4, h5, hd, hm]
  · intro d p hh hd hm
    obtain ⟨⟨⟨⟨h1, h2⟩, h3⟩, h4⟩, h5⟩ :
        (((sharePointHost d = false ∧ teamsHost d = false) ∧ oneDriveHost d = false) ∧
          fileSharingHost d = false) ∧ meetingHost d = false := by
      simpa [anyHostRule] using hh
    simp [classify_hostpath, h1, h2, h3, h4, h5, hd, hm]

/-! ## C8: attachment duplicate suppression -/

/-- A fold whose step either keeps the accumulator or appends one
element not already present preserves `Nodup`. -/
theorem foldl_nodup_step {γ α : Type} (step : List α → γ → List α)
    (hstep : ∀ acc x, step acc x = acc ∨ ∃ b, b ∉ acc ∧ step acc x = acc ++ [b]) :
    ∀ (xs : List γ) (acc : List α), acc.Nodup → (xs.foldl step acc).Nodup
  | [], _, h => h
  | x :: xs, acc, h => by
    simp only [List.foldl_cons]
    apply foldl_nodup_step step hstep xs
    rcases hstep acc x with he | ⟨b, hb, he⟩
    · rw [he]; exact h
    · rw [he, List.nodup_append]
      refine ⟨h, List.nodup_singleton b, ?_⟩
      intro a ha hmem
      exact hb (by rwa [List.mem_singleton.mp hmem] at ha)

/-- C8 counterexample.  Two sibling `div`s with class `attachment` and
the same `title` each produce the same attachment entry through
strategy 1, which appends unconditionally: the returned list contains
two entries equal on all four fields. -/
theorem attach_dup_counterexample :
    extract_attachments exDupAttach = [dupInfo, dupInfo]
    ∧ ¬ (extract_attachments exDupAttach).Nodup := by
  exact ⟨by decide, by decide⟩

/-- C8 as amended.  Strategies 2 and 3 append an attachment only when
it is not already in the shared list (so they preserve freedom from
duplicates), but strategy 1 appends unconditionally; the returned list
is duplicate-free only when strategy 1's own contribution already is. -/
theorem attach_dup_suppression (element : Html) (acc : List AttachmentInfo)
    (hacc : acc.Nodup) (h1 : (attachMethod1 element).Nodup) :
    (attachStep2 element acc).Nodup
    ∧ (attachStep3 element acc).Nodup
    ∧ (extract_attachments element).Nodup := by
  have hstep2 : ∀ acc' : List AttachmentInfo, acc'.Nodup → (attachStep2 element acc').Nodup := by
    intro acc' h
    unfold attachStep2
    refine foldl_nodup_step _ ?_ _ _ h
    intro a x
    rcases hp : parentOf element x with _ | parent
    · left; simp [hp]
    · rcases hi : parse_attachment_element parent with _ | info
      · left; simp [hp, hi]
      · by_cases hmem : info ∈ a
        · left; simp [hp, hi, hmem]
        · right; exact ⟨info, hmem, by simp [hp, hi, hmem]⟩
  have hstep3 : ∀ acc' : List AttachmentInfo, acc'.Nodup → (attachStep3 element acc').Nodup := by
    intro acc' h
    unfold attachStep3
    refine foldl_nodup_step _ ?_ _ _ h
    intro a x
    dsimp only
    split
    · split
      · left; rfl
      · rename_i hmem
        right
        exact ⟨_, hmem, rfl⟩
    · left; rfl
  exact ⟨hstep2 acc hacc, hstep3 acc hacc,
    by unfold extract_attachments; exact hstep3 _ (hstep2 _ h1)⟩

/-- Witness for C8 (amended), at an element with a single attachment. -/
theorem attach_dup_suppression_witness :
    (extract_attachments exSingleAttach).Nodup :=
  (attach_dup_suppression exSingleAttach [] (by decide) (by decide)).2.2

/-! ## C10: statistics are updated before the empty-body discard -/

/-- C10.  For any element whose body resolves to empty, no record is
produced, yet the URL/attachment statistics are already updated: the
URL total grows by the number of extracted URLs, the attachment total
by the number of extracted attachments, and the with-URL/with-attachment
message counters by one when the respective list is non-empty. -/
theorem stats_count_discarded (stats : Stats) (e : Html) (idx : Nat)
    (h : extract_message_text e = none) :
    (extract_message_data stats e idx).1 = none
    ∧ (extract_message_data stats e idx).2.urls_extracted =
        stats.urls_extracted + (extract_urls e).length
    ∧ (extract_message_data stats e idx).2.messages_with_urls =
        stats.messages_with_urls + (if (extract_urls e).isEmpty then 0 else 1)
    ∧ (extract_message_data stats e idx).2.attachments_found =
        stats.attachments_found + (extract_attachments e).length
    ∧ (extract_message_data stats e idx).2.messages_with_attachments =
        stats.messages_with_attachments + (if (extract_attachments e).isEmpty then 0 else 1) := by
  by_cases hu : (extract_urls e).isEmpty <;>
    by_cases ha : (extract_attachments e).isEmpty <;>
      refine ⟨?_, ?_, ?_, ?_, ?_⟩ <;>
        simp only [extract_message_data, h, hu, ha, if_true, if_false, List.isEmpty_iff.mp,
          Bool.false_eq_true, ite_false, ite_true] <;>
        first
          | rfl
          | simp_all [List.isEmpty_iff]

/-- Witness for C10, at an element carrying one URL and two attachment
entries but no text. -/
theorem stats_count_discarded_witness :
    (extract_message_data initStats exC10 0).1 = none
    ∧ (extract_message_data initStats exC10 0).2.urls_extracted =
        initStats.urls_extracted + (extract_urls exC10).length
    ∧ (extract_message_data initStats exC10 0).2.attachments_found =
        initStats.attachments_found + (extract_attachments exC10).length := by
  have hh := stats_count_discarded initStats exC10 0 (by decide)
  exact ⟨hh.1, hh.2.1, hh.2.2.2.1⟩

end TeamsChat
